import Mathlib

/-!
Shallow embedding of the simulated-annealing sports scheduler
(`simulated_annealing.py`) and proofs about it.

Python lists of rounds become `List (List (Nat × Nat))`; a match `(home, away)`
is a pair of team identifiers.  Randomness is modelled by explicit draw
arguments: every call to the Python `random` module corresponds to one field of
a draw structure, so theorems quantify over all possible draw sequences.
-/

/-- Team strength tiers: `'S'`, `'M'`, `'W'` in the source. -/
inductive Strength where
  | S : Strength
  | M : Strength
  | W : Strength
deriving DecidableEq, Repr

/-- The configuration stored by `SportsScheduler.__init__`: the team count,
the strength classification `teams_strength` (indexed by team id) and the
cost table `costs` (a 4-tuple `(SS, SM, MS, MM)` per tier). -/
structure Scheduler where
  num_teams : Nat
  teams_strength : Nat → Strength
  costs : Strength → Nat × Nat × Nat × Nat

/-- One rotation step of the circle method:
`teams = [teams[0]] + [teams[-1]] + teams[1:-1]`. -/
def rotateTeams : List Nat → List Nat
  | [] => []
  | t :: rest => t :: rest.getLastD t :: rest.dropLast

/-- One round of `initialize_schedule`: pair position `i` with position
`n - 1 - i` for `i < n / 2`, skipping matches that involve the dummy team
(a team id `≥ numTeams`). -/
def roundMatches (numTeams n : Nat) (teams : List Nat) : List (Nat × Nat) :=
  (List.range (n / 2)).filterMap (fun i =>
    let home := teams.getD i 0
    let away := teams.getD (n - 1 - i) 0
    if home < numTeams ∧ away < numTeams then some (home, away) else none)

/-- The round-generation loop of `initialize_schedule`: record a round, then
rotate, `k` times. -/
def buildRounds (numTeams n : Nat) : Nat → List Nat → List (List (Nat × Nat))
  | 0, _ => []
  | k + 1, teams => roundMatches numTeams n teams :: buildRounds numTeams n k (rotateTeams teams)

/-- `SportsScheduler.initialize_schedule`: circle-method construction of the
initial round-robin schedule.  If `numTeams` is odd one dummy team is added. -/
def initialize_schedule (numTeams : Nat) : List (List (Nat × Nat)) :=
  let n := if numTeams % 2 = 1 then numTeams + 1 else numTeams
  buildRounds numTeams n (n - 1) (List.range n)

/-- The flattened list of teams occurring in a round
(`teams_in_round.extend(match)` in `is_valid_schedule`). -/
def teamsInRound (round : List (Nat × Nat)) : List Nat :=
  (round.map (fun m => [m.1, m.2])).flatten

/-- `tuple(sorted(match))`: the order-independent form of a match. -/
def sortPair (m : Nat × Nat) : Nat × Nat :=
  if m.1 ≤ m.2 then m else (m.2, m.1)

/-- All matches of a schedule in order, each in sorted form (the list of
entries inserted into `played_matches`). -/
def allPairs (s : List (List (Nat × Nat))) : List (Nat × Nat) :=
  (s.flatten).map sortPair

/-- Per-round check of `is_valid_schedule`: every team `< numTeams` occurs
exactly once among the teams of the round. -/
def roundOk (numTeams : Nat) (round : List (Nat × Nat)) : Bool :=
  (List.range numTeams).all (fun t => (teamsInRound round).count t == 1)

/-- `SportsScheduler.is_valid_schedule`: each real team exactly once per round,
no repeated (sorted) match, and the total number of distinct matches equals
`numTeams * (numTeams - 1) / 2`. -/
def is_valid_schedule (numTeams : Nat) (s : List (List (Nat × Nat))) : Bool :=
  s.all (roundOk numTeams) &&
  decide (allPairs s).Nodup &&
  ((allPairs s).length == numTeams * (numTeams - 1) / 2)

/-- `SportsScheduler.get_opponent`: first match of the round containing `team`
determines the opponent; `None` when the team does not play. -/
def get_opponent (team : Nat) : List (Nat × Nat) → Option Nat
  | [] => none
  | m :: rest =>
      if m.1 = team ∨ m.2 = team then some (if m.2 = team then m.1 else m.2)
      else get_opponent team rest

/-- The cost added for one team at one adjacent-round pair, given the team's
tier and the two opponents' tiers (the `if`/`elif` chain of `evaluate_cost`). -/
def pairCost (c : Scheduler) (ts o1 o2 : Strength) : Nat :=
  if o1 = Strength.S ∧ o2 = Strength.S then (c.costs ts).1
  else if o1 = Strength.S ∧ o2 = Strength.M then (c.costs ts).2.1
  else if o1 = Strength.M ∧ o2 = Strength.S then (c.costs ts).2.2.1
  else if o1 = Strength.M ∧ o2 = Strength.M then (c.costs ts).2.2.2
  else 0

/-- `SportsScheduler.evaluate_cost`: sum over every real team and every pair of
adjacent rounds of the consecutive-opponent penalty; adjacencies where the team
does not play in one of the two rounds contribute nothing. -/
def evaluate_cost (c : Scheduler) (s : List (List (Nat × Nat))) : Nat :=
  ((List.range c.num_teams).map (fun team =>
    ((List.range (s.length - 1)).map (fun r =>
      match get_opponent team (s.getD r []), get_opponent team (s.getD (r + 1) []) with
      | some o1, some o2 => pairCost c (c.teams_strength team) (c.teams_strength o1) (c.teams_strength o2)
      | _, _ => 0)).sum)).sum

/-- The spec's description of the cost table lookup (§4.3): a penalty accrues
only when both opponents' tiers are Strong or Medium, the four combinations
selecting indices 0..3 of the team's cost tuple. -/
def specPairCost (costs : Strength → Nat × Nat × Nat × Nat) (t o1 o2 : Strength) : Nat :=
  match o1, o2 with
  | Strength.S, Strength.S => (costs t).1
  | Strength.S, Strength.M => (costs t).2.1
  | Strength.M, Strength.S => (costs t).2.2.1
  | Strength.M, Strength.M => (costs t).2.2.2
  | _, _ => 0

/-- The random indices consumed by one attempt of the cross-round swap
(operation 1 of `generate_neighbor`): two round indices and one match index in
each round.  The source's `while` loop guarantees `r1 ≠ r2` and `randint`
guarantees the bounds; theorems state these as well-formedness hypotheses. -/
structure SwapDraw where
  r1 : Nat
  r2 : Nat
  m1 : Nat
  m2 : Nat
deriving DecidableEq, Repr

/-- The teams appearing in a round's matches other than the match at `idx`
(the sets `teams_in_round1` / `teams_in_round2` of `generate_neighbor`). -/
def otherTeams (round : List (Nat × Nat)) (idx : Nat) : List Nat :=
  ((round.enum.filter (fun p => p.1 ≠ idx)).map (fun p => [p.2.1, p.2.2])).flatten

/-- The conflict test of operation 1: some team of the candidate partner match
already appears among the other matches of the receiving round. -/
def swapConflict (round1 : List (Nat × Nat)) (m1 : Nat) (round2 : List (Nat × Nat)) (m2 : Nat) : Bool :=
  let match1 := round1.getD m1 (0, 0)
  let match2 := round2.getD m2 (0, 0)
  (otherTeams round1 m1).contains match2.1 || (otherTeams round1 m1).contains match2.2 ||
  (otherTeams round2 m2).contains match1.1 || (otherTeams round2 m2).contains match1.2

/-- The attempt loop of operation 1 (`for _ in range(max_attempts)`): skip an
attempt whose swap would create duplicate teams in a round, otherwise perform
the swap and stop.  An exhausted loop returns the schedule unchanged. -/
def trySwaps (s : List (List (Nat × Nat))) : List SwapDraw → List (List (Nat × Nat))
  | [] => s
  | d :: rest =>
      let round1 := s.getD d.r1 []
      let round2 := s.getD d.r2 []
      if swapConflict round1 d.m1 round2 d.m2 then trySwaps s rest
      else
        let match1 := round1.getD d.m1 (0, 0)
        let match2 := round2.getD d.m2 (0, 0)
        let s1 := s.set d.r1 (round1.set d.m1 match2)
        s1.set d.r2 ((s1.getD d.r2 []).set d.m2 match1)

/-- The randomness consumed by one call of `generate_neighbor`: the operation
choice (`random.choice([1, 2])`), the attempt draws of operation 1, and the
round/match index of operation 2. -/
structure NbrDraw where
  op : Nat
  swaps : List SwapDraw
  flipR : Nat
  flipM : Nat

/-- `SportsScheduler.generate_neighbor`: operation 1 swaps two matches between
rounds (with the conflict check and retry), operation 2 flips the home/away
orientation of one match. -/
def generate_neighbor (s : List (List (Nat × Nat))) (d : NbrDraw) : List (List (Nat × Nat)) :=
  if d.op = 1 then trySwaps s d.swaps
  else if d.op = 2 then
    let round := s.getD d.flipR []
    let m := round.getD d.flipM (0, 0)
    s.set d.flipR (round.set d.flipM (m.2, m.1))
  else s

/-- Well-formedness of one swap attempt's draws, exactly what `randint` and the
`while round1_idx == round2_idx` loop guarantee in the source. -/
def wfSwapDraw (s : List (List (Nat × Nat))) (d : SwapDraw) : Prop :=
  d.r1 < s.length ∧ d.r2 < s.length ∧ d.r1 ≠ d.r2 ∧
  d.m1 < (s.getD d.r1 []).length ∧ d.m2 < (s.getD d.r2 []).length

instance (s : List (List (Nat × Nat))) (d : SwapDraw) : Decidable (wfSwapDraw s d) := by
  unfold wfSwapDraw; infer_instance

/-- Well-formedness of the draws of one `generate_neighbor` call. -/
def wfNbrDraw (s : List (List (Nat × Nat))) (d : NbrDraw) : Prop :=
  (d.op = 1 → ∀ sd ∈ d.swaps, wfSwapDraw s sd) ∧
  (d.op = 2 → d.flipR < s.length ∧ d.flipM < (s.getD d.flipR []).length)

instance (s : List (List (Nat × Nat))) (d : NbrDraw) : Decidable (wfNbrDraw s d) := by
  unfold wfNbrDraw; infer_instance

/-- The two combinatorial invariants of §3 of the spec, together with the data
model's constraint that a `Match` pairs two distinct valid team identifiers:
(1) per round, each real team appears exactly once; (2) across the schedule no
unordered pair repeats and the distinct-pair count is `n(n-1)/2`. -/
def RoundRobinInvariants (numTeams : Nat) (s : List (List (Nat × Nat))) : Prop :=
  (∀ round ∈ s, ∀ m ∈ round, m.1 < numTeams ∧ m.2 < numTeams ∧ m.1 ≠ m.2) ∧
  (∀ round ∈ s, ∀ t < numTeams, (teamsInRound round).count t = 1) ∧
  (allPairs s).Nodup ∧
  (allPairs s).length = numTeams * (numTeams - 1) / 2

instance (numTeams : Nat) (s : List (List (Nat × Nat))) :
    Decidable (RoundRobinInvariants numTeams s) := by
  unfold RoundRobinInvariants; infer_instance

/-- The search state of `simulated_annealing`: current schedule and cost, best
schedule and cost, current temperature. -/
structure SAState where
  current : List (List (Nat × Nat))
  currentCost : Nat
  best : List (List (Nat × Nat))
  bestCost : Nat
  temp : ℝ

/-- The randomness consumed by one iteration of the annealing loop: the
neighbor draws and the uniform variate `random.random()` of the Metropolis
test. -/
structure IterDraw where
  nbr : NbrDraw
  u : ℝ

open Classical in
/-- One iteration of the `for i in range(iterations)` loop of
`simulated_annealing`: generate a neighbor; if invalid, `continue` (no
cooling); otherwise accept if strictly better (updating the best on
improvement), else accept with the Metropolis probability
`exp(-(neighborCost - currentCost) / temp)`; finally cool the temperature. -/
noncomputable def saStep (c : Scheduler) (coolingRate : ℝ) (st : SAState) (d : IterDraw) : SAState :=
  let nb := generate_neighbor st.current d.nbr
  if is_valid_schedule c.num_teams nb = true then
    let ncost := evaluate_cost c nb
    let st' :=
      if ncost < st.currentCost then
        let acc : SAState := { st with current := nb, currentCost := ncost }
        if ncost < st.bestCost then { acc with best := nb, bestCost := ncost } else acc
      else
        if d.u < Real.exp (-((ncost : ℝ) - (st.currentCost : ℝ)) / st.temp) then
          { st with current := nb, currentCost := ncost }
        else st
    { st' with temp := st'.temp * coolingRate }
  else st

/-- The annealing loop over the whole iteration budget. -/
noncomputable def saLoop (c : Scheduler) (coolingRate : ℝ) : SAState → List IterDraw → SAState
  | st, [] => st
  | st, d :: rest => saLoop c coolingRate (saStep c coolingRate st d) rest

/-- Number of iterations of a run whose generated neighbor passes validation
(the iterations that reach the cooling statement rather than `continue`). -/
noncomputable def validIters (c : Scheduler) (coolingRate : ℝ) : SAState → List IterDraw → Nat
  | _, [] => 0
  | st, d :: rest =>
      (if is_valid_schedule c.num_teams (generate_neighbor st.current d.nbr) then 1 else 0) +
      validIters c coolingRate (saStep c coolingRate st d) rest

/-- The searching part of `simulated_annealing` from a validated starting
schedule: run the loop and return the best schedule with its cost. -/
noncomputable def saRun (c : Scheduler) (initialTemp coolingRate : ℝ)
    (s0 : List (List (Nat × Nat))) (draws : List IterDraw) : List (List (Nat × Nat)) × Nat :=
  let cost0 := evaluate_cost c s0
  let final := saLoop c coolingRate
    { current := s0, currentCost := cost0, best := s0, bestCost := cost0, temp := initialTemp } draws
  (final.best, final.bestCost)

/-- `SportsScheduler.simulated_annealing`: validate the initial schedule
(`self.schedule`, built by `__init__` via `initialize_schedule`); on failure
rebuild once via `initialize_schedule` and validate again, returning
`(None, None)` if still invalid; otherwise run the annealing loop and return
the best schedule and its cost. -/
noncomputable def simulated_annealing (c : Scheduler) (initialTemp coolingRate : ℝ)
    (draws : List IterDraw) : Option (List (List (Nat × Nat)) × Nat) :=
  let current := initialize_schedule c.num_teams
  if is_valid_schedule c.num_teams current = true then
    some (saRun c initialTemp coolingRate current draws)
  else
    let rebuilt := initialize_schedule c.num_teams
    if is_valid_schedule c.num_teams rebuilt = true then
      some (saRun c initialTemp coolingRate rebuilt draws)
    else none

/-- Closed form for the team sitting at position `i` of the rotated circle in
round `r` (position `0` is the fixed team `0`). -/
def teamAt (n r i : Nat) : Nat :=
  if i = 0 then 0 else 1 + ((i - 1 + (n - 2) * r) % (n - 1))

/-- The team order after `r` rotation steps. -/
def teamsAfter (n : Nat) : Nat → List Nat
  | 0 => List.range n
  | r + 1 => rotateTeams (teamsAfter n r)

/-- The positions paired within one round of the circle method: `i` with
`n - 1 - i` for `i < n / 2`. -/
def posPairs (n : Nat) : List Nat :=
  ((List.range (n / 2)).map (fun i => [i, n - 1 - i])).flatten

/-- The default cost table of `SportsScheduler.__init__`. -/
def defaultCosts : Strength → Nat × Nat × Nat × Nat
  | Strength.S => (16, 4, 4, 2)
  | Strength.M => (32, 8, 8, 4)
  | Strength.W => (48, 12, 12, 6)

/-- A 4-team scheduler configuration in which every team is Weak. -/
def schedW4 : Scheduler :=
  { num_teams := 4, teams_strength := fun _ => Strength.W, costs := defaultCosts }

/-- A 3-team scheduler configuration (odd team count). -/
def schedW3 : Scheduler :=
  { num_teams := 3, teams_strength := fun _ => Strength.W, costs := defaultCosts }

/-- A concrete neighbor draw selecting operation 2 (home/away flip) on the
first match of the first round. -/
def dflip : NbrDraw := { op := 2, swaps := [], flipR := 0, flipM := 0 }

/-- A concrete iteration draw: the flip above, with uniform variate 1. -/
def dIterW4 : IterDraw := { nbr := dflip, u := 1 }

/-- A concrete search state over the built 4-team schedule. -/
def stW4 : SAState :=
  { current := initialize_schedule 4, currentCost := 0,
    best := initialize_schedule 4, bestCost := 0, temp := 500 }

/-- A concrete search state over the (invalid) built 3-team schedule. -/
def stW3 : SAState :=
  { current := initialize_schedule 3, currentCost := 0,
    best := initialize_schedule 3, bestCost := 0, temp := 500 }

/-- Claim C1, counterexample: already at `numTeams = 3` the schedule built by
`initialize_schedule` is rejected by `is_valid_schedule` (the bye team of each
round has occurrence count 0, not 1), contradicting the claim that validation
passes for odd team counts. -/
theorem odd_three_fails_validation :
    is_valid_schedule 3 (initialize_schedule 3) = false := by decide

/-- Claim C1, amended: for every odd `numTeams` in `{3, 5, 7, 9}` the schedule
returned by `initialize_schedule` has `numTeams` rounds, each containing
`(numTeams - 1) / 2` matches (one real team having a bye per round), but
`is_valid_schedule` returns `false` on it, because its per-round check demands
that every real team appear exactly once and the bye team appears zero times. -/
theorem odd_small_build_counts_and_validation :
    ((initialize_schedule 3).length = 3 ∧
      (∀ r ∈ initialize_schedule 3, r.length = 1) ∧
      is_valid_schedule 3 (initialize_schedule 3) = false) ∧
    ((initialize_schedule 5).length = 5 ∧
      (∀ r ∈ initialize_schedule 5, r.length = 2) ∧
      is_valid_schedule 5 (initialize_schedule 5) = false) ∧
    ((initialize_schedule 7).length = 7 ∧
      (∀ r ∈ initialize_schedule 7, r.length = 3) ∧
      is_valid_schedule 7 (initialize_schedule 7) = false) ∧
    ((initialize_schedule 9).length = 9 ∧
      (∀ r ∈ initialize_schedule 9, r.length = 4) ∧
      is_valid_schedule 9 (initialize_schedule 9) = false) := by
  refine ⟨⟨by decide, ?_, by decide⟩, ⟨by decide, ?_, by decide⟩,
    ⟨by decide, ?_, by decide⟩, ⟨by decide, ?_, by decide⟩⟩ <;> decide

/-- Claim C4: `evaluate_cost` adds a penalty at an adjacency only when both
opponents' tiers are Strong or Medium, the four combinations `SS, SM, MS, MM`
selecting components 0..3 of the team's cost tuple and every combination
involving a Weak opponent adding nothing; consequently, if every team's tier
is Weak, `evaluate_cost` returns 0 on every schedule (in particular on every
valid one). -/
theorem cost_model_strong_medium_only :
    (∀ (c : Scheduler) (ts o1 o2 : Strength),
        pairCost c ts o1 o2 = specPairCost c.costs ts o1 o2) ∧
    (∀ (c : Scheduler) (s : List (List (Nat × Nat))),
        (∀ t, c.teams_strength t = Strength.W) → evaluate_cost c s = 0) := by
  constructor
  · intro c ts o1 o2
    cases o1 <;> cases o2 <;> rfl
  · intro c s hW
    unfold evaluate_cost
    apply List.sum_eq_zero
    intro x hx
    rcases List.mem_map.1 hx with ⟨team, -, rfl⟩
    apply List.sum_eq_zero
    intro y hy
    rcases List.mem_map.1 hy with ⟨r, -, rfl⟩
    cases h1 : get_opponent team (s.getD r []) <;>
        cases h2 : get_opponent team (s.getD (r + 1) []) <;>
      first
      | rfl
      | (simp only [hW]; rfl)

/-- Claim C4, witness: the characterization applied at a concrete
configuration: with four Weak teams the cost of the built 4-team schedule is 0,
and the `pairCost` table agrees with the spec's table at a sample entry. -/
theorem cost_model_strong_medium_only_witness :
    evaluate_cost schedW4 (initialize_schedule 4) = 0 ∧
    pairCost schedW4 Strength.W Strength.S Strength.M =
      specPairCost schedW4.costs Strength.W Strength.S Strength.M :=
  ⟨cost_model_strong_medium_only.2 schedW4 (initialize_schedule 4) (fun _ => rfl),
   cost_model_strong_medium_only.1 schedW4 Strength.W Strength.S Strength.M⟩

/-- Claim C5, counterexample: for `numTeams = 1 < 2` no configuration error is
signaled anywhere in `__init__` or `initialize_schedule`; the builder returns
the schedule `[[]]` (one round, no matches), so a schedule value is produced. -/
theorem small_input_produces_schedule :
    initialize_schedule 1 = [[]] := by decide

/-- Claim C5, amended: for `numTeams < 2` the code signals no configuration
error and still produces a (degenerate) schedule: `[]` for 0 teams, which even
passes validation vacuously, and `[[]]` for 1 team, which fails validation. -/
theorem small_input_degenerate_schedules :
    initialize_schedule 0 = [] ∧
    is_valid_schedule 0 (initialize_schedule 0) = true ∧
    is_valid_schedule 1 (initialize_schedule 1) = false := by
  refine ⟨by decide, by decide, by decide⟩

/-- Claim C9: if the initial schedule fails validation the driver rebuilds via
the same (deterministic) builder and validates again; when that is still
invalid the run returns no result, and when the initial schedule is valid the
run returns the result of the search. -/
theorem construction_failure_returns_none (c : Scheduler) (T0 α : ℝ) (draws : List IterDraw) :
    (is_valid_schedule c.num_teams (initialize_schedule c.num_teams) = false →
      simulated_annealing c T0 α draws = none) ∧
    (is_valid_schedule c.num_teams (initialize_schedule c.num_teams) = true →
      simulated_annealing c T0 α draws =
        some (saRun c T0 α (initialize_schedule c.num_teams) draws)) := by
  constructor
  · intro h
    unfold simulated_annealing
    simp [h]
  · intro h
    unfold simulated_annealing
    simp [h]

/-- Claim C9, witness: the 3-team configuration builds an invalid schedule
(odd team count), so both validation attempts fail and the run returns
`none`. -/
theorem construction_failure_returns_none_witness :
    is_valid_schedule schedW3.num_teams (initialize_schedule schedW3.num_teams) = false ∧
    simulated_annealing schedW3 500 (9 / 10) [] = none :=
  ⟨by decide, (construction_failure_returns_none schedW3 500 (9 / 10) []).1 (by decide)⟩

/-- Helper: one annealing iteration never increases the recorded best cost. -/
theorem saStep_bestCost_le (c : Scheduler) (α : ℝ) (st : SAState) (d : IterDraw) :
    (saStep c α st d).bestCost ≤ st.bestCost := by
  unfold saStep
  dsimp only
  split
  · split
    · split
      · exact le_of_lt (by assumption)
      · exact le_refl _
    · split
      · exact le_refl _
      · exact le_refl _
  · exact le_refl _

/-- Helper: the annealing loop never increases the recorded best cost. -/
theorem saLoop_bestCost_le (c : Scheduler) (α : ℝ) (st : SAState) (draws : List IterDraw) :
    (saLoop c α st draws).bestCost ≤ st.bestCost := by
  induction draws generalizing st with
  | nil => exact le_refl _
  | cons d rest ih =>
      exact le_trans (ih (saStep c α st d)) (saStep_bestCost_le c α st d)

/-- Claim C7: the recorded best cost never increases — per iteration, over the
whole loop, and end to end: any successful run returns a best cost that is at
most the cost of the initial schedule computed via `evaluate_cost`. -/
theorem best_cost_monotone (c : Scheduler) (α : ℝ) :
    (∀ st d, (saStep c α st d).bestCost ≤ st.bestCost) ∧
    (∀ st draws, (saLoop c α st draws).bestCost ≤ st.bestCost) ∧
    (∀ (T0 : ℝ) (draws : List IterDraw) sch cost,
      simulated_annealing c T0 α draws = some (sch, cost) →
      cost ≤ evaluate_cost c (initialize_schedule c.num_teams)) := by
  refine ⟨saStep_bestCost_le c α, saLoop_bestCost_le c α, ?_⟩
  intro T0 draws sch cost h
  by_cases hv : is_valid_schedule c.num_teams (initialize_schedule c.num_teams) = true
  · unfold simulated_annealing at h
    simp only [hv, if_pos] at h
    have h2 := Option.some.inj h
    have h3 : cost = (saRun c T0 α (initialize_schedule c.num_teams) draws).2 := by
      rw [h2]
    have h4 : (saRun c T0 α (initialize_schedule c.num_teams) draws).2 =
        (saLoop c α
          { current := initialize_schedule c.num_teams,
            currentCost := evaluate_cost c (initialize_schedule c.num_teams),
            best := initialize_schedule c.num_teams,
            bestCost := evaluate_cost c (initialize_schedule c.num_teams),
            temp := T0 } draws).bestCost := rfl
    rw [h3, h4]
    exact saLoop_bestCost_le c α _ draws
  · unfold simulated_annealing at h
    simp only [if_neg hv] at h
    exact absurd h (by simp)

/-- Claim C7, witness: a zero-iteration run over the all-Weak 4-team
configuration succeeds and its returned best cost satisfies the bound. -/
theorem best_cost_monotone_witness :
    simulated_annealing schedW4 500 (9 / 10) [] = some (initialize_schedule 4, 0) ∧
    (0 : Nat) ≤ evaluate_cost schedW4 (initialize_schedule schedW4.num_teams) :=
  ⟨rfl, (best_cost_monotone schedW4 (9 / 10)).2.2 500 [] (initialize_schedule 4) 0 rfl⟩

/-- Helper: an iteration whose neighbor fails validation leaves the
temperature untouched (the `continue` path skips the cooling statement). -/
theorem saStep_temp_invalid (c : Scheduler) (α : ℝ) (st : SAState) (d : IterDraw)
    (hv : is_valid_schedule c.num_teams (generate_neighbor st.current d.nbr) = false) :
    (saStep c α st d).temp = st.temp := by
  unfold saStep
  dsimp only
  rw [if_neg (by simp [hv])]

/-- Helper: an iteration whose neighbor passes validation multiplies the
temperature by the cooling rate exactly once, whether or not the neighbor is
accepted. -/
theorem saStep_temp_valid (c : Scheduler) (α : ℝ) (st : SAState) (d : IterDraw)
    (hv : is_valid_schedule c.num_teams (generate_neighbor st.current d.nbr) = true) :
    (saStep c α st d).temp = st.temp * α := by
  unfold saStep
  dsimp only
  rw [if_pos hv]
  dsimp only
  congr 1
  split
  · split <;> rfl
  · split <;> rfl

/-- Helper: the recursion equation of `validIters`. -/
theorem validIters_cons (c : Scheduler) (α : ℝ) (st : SAState) (d : IterDraw)
    (rest : List IterDraw) :
    validIters c α st (d :: rest) =
      (if is_valid_schedule c.num_teams (generate_neighbor st.current d.nbr) then 1 else 0) +
        validIters c α (saStep c α st d) rest := rfl

/-- Helper: closed form of the temperature after any run of the loop. -/
theorem saLoop_temp_formula (c : Scheduler) (α : ℝ) (st : SAState) (draws : List IterDraw) :
    (saLoop c α st draws).temp = st.temp * α ^ validIters c α st draws := by
  induction draws generalizing st with
  | nil => simp [saLoop, validIters]
  | cons d rest ih =>
      show (saLoop c α (saStep c α st d) rest).temp = _
      rw [ih, validIters_cons]
      cases hv : is_valid_schedule c.num_teams (generate_neighbor st.current d.nbr) with
      | false =>
          rw [saStep_temp_invalid c α st d hv]
          simp
      | true =>
          rw [saStep_temp_valid c α st d hv]
          norm_num
          rw [add_comm 1, pow_succ]
          ring

/-- Claim C8: an iteration with an invalid neighbor consumes an iteration but
leaves the temperature unchanged; an iteration with a valid neighbor
(accepted or not) multiplies the temperature by the cooling rate exactly once;
hence after any run the temperature equals the starting temperature times
`coolingRate ^ (number of valid-neighbor iterations)`. -/
theorem cooling_per_valid_iteration (c : Scheduler) (α : ℝ) :
    (∀ st d, is_valid_schedule c.num_teams (generate_neighbor st.current d.nbr) = false →
      (saStep c α st d).temp = st.temp) ∧
    (∀ st d, is_valid_schedule c.num_teams (generate_neighbor st.current d.nbr) = true →
      (saStep c α st d).temp = st.temp * α) ∧
    (∀ st draws, (saLoop c α st draws).temp = st.temp * α ^ validIters c α st draws) :=
  ⟨saStep_temp_invalid c α, saStep_temp_valid c α, saLoop_temp_formula c α⟩

/-- Claim C8, witness: applied at concrete states — an invalid flip over the
3-team schedule keeps the temperature at 500, a valid flip over the 4-team
schedule cools it to `500 * (9/10)`. -/
theorem cooling_per_valid_iteration_witness :
    is_valid_schedule schedW3.num_teams (generate_neighbor stW3.current dIterW4.nbr) = false ∧
    (saStep schedW3 (9 / 10) stW3 dIterW4).temp = stW3.temp ∧
    is_valid_schedule schedW4.num_teams (generate_neighbor stW4.current dIterW4.nbr) = true ∧
    (saStep schedW4 (9 / 10) stW4 dIterW4).temp = stW4.temp * (9 / 10) :=
  ⟨by decide,
   (cooling_per_valid_iteration schedW3 (9 / 10)).1 stW3 dIterW4 (by decide),
   by decide,
   (cooling_per_valid_iteration schedW4 (9 / 10)).2.1 stW4 dIterW4 (by decide)⟩

/-- Helper: one iteration keeps the temperature positive. -/
theorem saStep_temp_pos (c : Scheduler) (α : ℝ) (st : SAState) (d : IterDraw)
    (h1 : 0 < st.temp) (h2 : 0 < α) : 0 < (saStep c α st d).temp := by
  cases hv : is_valid_schedule c.num_teams (generate_neighbor st.current d.nbr) with
  | false => rw [saStep_temp_invalid c α st d hv]; exact h1
  | true => rw [saStep_temp_valid c α st d hv]; exact mul_pos h1 h2

/-- Helper: the whole loop keeps the temperature positive. -/
theorem saLoop_temp_pos (c : Scheduler) (α : ℝ) (h2 : 0 < α) :
    ∀ (draws : List IterDraw) (st : SAState), 0 < st.temp → 0 < (saLoop c α st draws).temp := by
  intro draws
  induction draws with
  | nil => intro st h; exact h
  | cons d rest ih => intro st h; exact ih (saStep c α st d) (saStep_temp_pos c α st d h h2)

open Classical in
/-- Claim C6: when a valid neighbor's cost is not strictly below the current
cost, the step accepts it exactly when the uniform draw is below the Metropolis
probability `exp(-(neighborCost - currentCost) / T)` at the current
temperature; and with a positive starting temperature and positive cooling
rate the temperature at every iteration (every prefix of the draw list) stays
positive, so the division in the exponent is never a division by zero and the
temperature never decays to zero. -/
theorem metropolis_acceptance (c : Scheduler) (α : ℝ) :
    (∀ st d, is_valid_schedule c.num_teams (generate_neighbor st.current d.nbr) = true →
      st.currentCost ≤ evaluate_cost c (generate_neighbor st.current d.nbr) →
      (saStep c α st d).current =
        if d.u < Real.exp (-((evaluate_cost c (generate_neighbor st.current d.nbr) : ℝ) -
            (st.currentCost : ℝ)) / st.temp)
        then generate_neighbor st.current d.nbr else st.current) ∧
    (∀ st (draws : List IterDraw) (k : Nat), 0 < st.temp → 0 < α →
      0 < (saLoop c α st (draws.take k)).temp) := by
  constructor
  · intro st d hv hle
    unfold saStep
    dsimp only
    rw [if_pos hv]
    dsimp only
    rw [if_neg (not_lt.mpr hle)]
    split
    · rfl
    · rfl
  · intro st draws k h1 h2
    exact saLoop_temp_pos c α h2 (draws.take k) st h1

open Classical in
/-- Claim C6, witness: the characterization applied at a concrete state over
the all-Weak 4-team configuration (flip neighbor, equal costs, temperature
500, cooling rate 9/10, one-iteration prefix). -/
theorem metropolis_acceptance_witness :
    is_valid_schedule schedW4.num_teams (generate_neighbor stW4.current dIterW4.nbr) = true ∧
    stW4.currentCost ≤ evaluate_cost schedW4 (generate_neighbor stW4.current dIterW4.nbr) ∧
    (saStep schedW4 (9 / 10) stW4 dIterW4).current =
      (if dIterW4.u < Real.exp (-((evaluate_cost schedW4 (generate_neighbor stW4.current dIterW4.nbr) : ℝ) -
          (stW4.currentCost : ℝ)) / stW4.temp)
       then generate_neighbor stW4.current dIterW4.nbr else stW4.current) ∧
    0 < (saLoop schedW4 (9 / 10) stW4 (List.take 1 [dIterW4])).temp :=
  ⟨by decide, by decide,
   (metropolis_acceptance schedW4 (9 / 10)).1 stW4 dIterW4 (by decide) (by decide),
   (metropolis_acceptance schedW4 (9 / 10)).2 stW4 [dIterW4] 1 (by norm_num [stW4]) (by norm_num)⟩

/-- Helper: the sorted form of a match ignores orientation. -/
theorem sortPair_swap (x y : Nat) : sortPair (x, y) = sortPair (y, x) := by
  unfold sortPair
  dsimp only
  by_cases h1 : x ≤ y <;> by_cases h2 : y ≤ x <;> simp only [h1, h2, if_true, if_false]
  · have : x = y := le_antisymm h1 h2
    subst this; rfl
  · omega

/-- Helper: two matches on the same two distinct teams have the same sorted
form. -/
theorem sortPair_eq_of_same_teams {a b c1 c2 : Nat} (hab : a ≠ b)
    (ha : c1 = a ∨ c2 = a) (hb : c1 = b ∨ c2 = b) :
    sortPair (c1, c2) = sortPair (a, b) := by
  rcases ha with h | h <;> rcases hb with h' | h'
  · exact absurd (h.symm.trans h') hab
  · rw [h, h']
  · rw [h, h', sortPair_swap]
  · exact absurd (h.symm.trans h') hab

/-- Helper: a team occurring in the flattened team list of a round occurs in
some match of the round. -/
theorem exists_index_of_mem_teamsInRound {round : List (Nat × Nat)} {t : Nat}
    (h : t ∈ teamsInRound round) :
    ∃ j, ∃ hj : j < round.length, round[j].1 = t ∨ round[j].2 = t := by
  unfold teamsInRound at h
  rw [List.mem_flatten] at h
  obtain ⟨l, hl, htl⟩ := h
  rw [List.mem_map] at hl
  obtain ⟨m, hm, rfl⟩ := hl
  obtain ⟨j, hj, hjm⟩ := List.mem_iff_getElem.mp hm
  refine ⟨j, hj, ?_⟩
  rw [hjm]
  simp only [List.mem_cons, List.mem_singleton] at htl
  rcases htl with h | h
  · exact Or.inl h.symm
  · rcases h with h | h
    · exact Or.inr h.symm
    · exact absurd h (List.not_mem_nil t)

/-- Helper: a team of a match at an index other than `idx` belongs to
`otherTeams round idx`. -/
theorem mem_otherTeams_of {round : List (Nat × Nat)} {idx t : Nat} (j : Nat)
    (hj : j < round.length) (hne : j ≠ idx) (ht : round[j].1 = t ∨ round[j].2 = t) :
    t ∈ otherTeams round idx := by
  unfold otherTeams
  rw [List.mem_flatten]
  refine ⟨[round[j].1, round[j].2], ?_, ?_⟩
  · rw [List.mem_map]
    refine ⟨(j, round[j]), ?_, rfl⟩
    rw [List.mem_filter]
    constructor
    · have hl : j < round.enum.length := by simpa [List.enum_length] using hj
      have he := List.getElem_enum round j hl
      exact he ▸ List.getElem_mem hl
    · simpa using hne
  · rcases ht with h | h <;> simp [h]

/-- Helper: if a team occurs exactly once in a round and not among the other
matches of the round, it occurs in the match at `idx`. -/
theorem match_at_idx_of_count_one {round : List (Nat × Nat)} {t : Nat}
    (hc : (teamsInRound round).count t = 1) {idx : Nat} (hnot : t ∉ otherTeams round idx) :
    ∃ hidx : idx < round.length, round[idx].1 = t ∨ round[idx].2 = t := by
  have hmem : t ∈ teamsInRound round := List.count_pos_iff.mp (by omega)
  obtain ⟨j, hj, hct⟩ := exists_index_of_mem_teamsInRound hmem
  by_cases hje : j = idx
  · subst hje; exact ⟨hj, hct⟩
  · exact absurd (mem_otherTeams_of j hj hje hct) hnot

/-- Helper: with `allPairs` duplicate-free, no sorted pair can occur in two
different rounds. -/
theorem not_dup_across_rounds {s : List (List (Nat × Nat))} (hnodup : (allPairs s).Nodup)
    {q : Nat × Nat} {r1 r2 : Nat} (h1 : r1 < s.length) (h2 : r2 < s.length) (hne : r1 ≠ r2)
    (hq1 : q ∈ s[r1].map sortPair) (hq2 : q ∈ s[r2].map sortPair) : False := by
  have hflat : allPairs s = (s.map (List.map sortPair)).flatten := by
    unfold allPairs
    rw [List.map_flatten]
  rw [hflat, List.nodup_flatten] at hnodup
  have hpw := hnodup.2
  rw [List.pairwise_iff_getElem] at hpw
  rcases Nat.lt_or_ge r1 r2 with h | h
  · have hd := hpw r1 r2 (by simpa using h1) (by simpa using h2) h
    rw [List.getElem_map, List.getElem_map] at hd
    exact hd hq1 hq2
  · have h' : r2 < r1 := by omega
    have hd := hpw r2 r1 (by simpa using h2) (by simpa using h1) h'
    rw [List.getElem_map, List.getElem_map] at hd
    exact hd hq2 hq1

/-- Helper: on a schedule satisfying the round-robin invariants, the conflict
check of operation 1 fires for every well-formed attempt: a partner match that
avoided the rest of both rounds would duplicate an already-scheduled pair. -/
theorem swapConflict_of_invariants {n : Nat} {s : List (List (Nat × Nat))}
    (hinv : RoundRobinInvariants n s) (d : SwapDraw) (hwf : wfSwapDraw s d) :
    swapConflict (s.getD d.r1 []) d.m1 (s.getD d.r2 []) d.m2 = true := by
  obtain ⟨hmatch, hcount, hnodup, -⟩ := hinv
  obtain ⟨hr1, hr2, hrne, hm1, hm2⟩ := hwf
  have e1 : s.getD d.r1 [] = s[d.r1] := List.getD_eq_getElem s [] hr1
  have e2 : s.getD d.r2 [] = s[d.r2] := List.getD_eq_getElem s [] hr2
  rw [e1] at hm1
  rw [e2] at hm2
  by_contra hfalse
  have hconf : swapConflict (s.getD d.r1 []) d.m1 (s.getD d.r2 []) d.m2 = false := by
    cases h : swapConflict (s.getD d.r1 []) d.m1 (s.getD d.r2 []) d.m2 with
    | true => exact absurd h hfalse
    | false => rfl
  unfold swapConflict at hconf
  rw [e1, e2] at hconf
  have em2 : (s[d.r2]).getD d.m2 (0, 0) = (s[d.r2])[d.m2] := List.getD_eq_getElem _ _ hm2
  have em1 : (s[d.r1]).getD d.m1 (0, 0) = (s[d.r1])[d.m1] := List.getD_eq_getElem _ _ hm1
  rw [em1, em2] at hconf
  simp only [Bool.or_eq_false_iff] at hconf
  obtain ⟨⟨⟨hc1, hc2⟩, -⟩, -⟩ := hconf
  have habn := hmatch (s[d.r2]) (List.getElem_mem hr2) ((s[d.r2])[d.m2]) (List.getElem_mem hm2)
  have ha_not : (s[d.r2])[d.m2].1 ∉ otherTeams (s[d.r1]) d.m1 := by
    intro hmem
    simp at hc1
    exact hc1 hmem
  have hb_not : (s[d.r2])[d.m2].2 ∉ otherTeams (s[d.r1]) d.m1 := by
    intro hmem
    simp at hc2
    exact hc2 hmem
  have hca : (teamsInRound (s[d.r1])).count (s[d.r2])[d.m2].1 = 1 :=
    hcount (s[d.r1]) (List.getElem_mem hr1) _ habn.1
  have hcb : (teamsInRound (s[d.r1])).count (s[d.r2])[d.m2].2 = 1 :=
    hcount (s[d.r1]) (List.getElem_mem hr1) _ habn.2.1
  obtain ⟨hi1, hma⟩ := match_at_idx_of_count_one hca ha_not
  obtain ⟨hi2, hmb⟩ := match_at_idx_of_count_one hcb hb_not
  have hsort : sortPair ((s[d.r1])[d.m1].1, (s[d.r1])[d.m1].2) =
      sortPair ((s[d.r2])[d.m2].1, (s[d.r2])[d.m2].2) :=
    sortPair_eq_of_same_teams habn.2.2 hma hmb
  have hq1 : sortPair ((s[d.r1])[d.m1]) ∈ (s[d.r1]).map sortPair :=
    List.mem_map_of_mem sortPair (List.getElem_mem hi1)
  have hq2 : sortPair ((s[d.r2])[d.m2]) ∈ (s[d.r2]).map sortPair :=
    List.mem_map_of_mem sortPair (List.getElem_mem hm2)
  have hq2' : sortPair ((s[d.r1])[d.m1]) ∈ (s[d.r2]).map sortPair := by
    have : sortPair ((s[d.r1])[d.m1]) = sortPair ((s[d.r2])[d.m2]) := hsort
    rw [this]
    exact hq2
  exact not_dup_across_rounds hnodup hr1 hr2 hrne hq1 hq2'

/-- Helper: on an invariant-satisfying schedule every well-formed attempt
conflicts, so the attempt loop of operation 1 exhausts all its attempts and
returns the schedule unchanged. -/
theorem trySwaps_noop {n : Nat} {s : List (List (Nat × Nat))}
    (hinv : RoundRobinInvariants n s) :
    ∀ (draws : List SwapDraw), (∀ d ∈ draws, wfSwapDraw s d) → trySwaps s draws = s := by
  intro draws
  induction draws with
  | nil => intro _; rfl
  | cons d rest ih =>
      intro hwf
      unfold trySwaps
      rw [if_pos (swapConflict_of_invariants hinv d (hwf d (List.mem_cons_self d rest)))]
      exact ih (fun d' hd' => hwf d' (List.mem_cons_of_mem d hd'))

/-- Helper: flipping the orientation of one match does not change any team's
opponent in the round (`get_opponent` only tests membership). -/
theorem get_opponent_set_flip (round : List (Nat × Nat)) (j : Nat) (hj : j < round.length)
    (t : Nat) :
    get_opponent t (round.set j ((round.getD j (0, 0)).2, (round.getD j (0, 0)).1)) =
      get_opponent t round := by
  induction round generalizing j with
  | nil => simp at hj
  | cons x xs ih =>
      cases j with
      | zero =>
          show get_opponent t ((x.2, x.1) :: xs) = get_opponent t (x :: xs)
          unfold get_opponent
          by_cases h1 : x.1 = t <;> by_cases h2 : x.2 = t <;>
            simp [h1, h2]
      | succ k =>
          have hk : k < xs.length := by simpa using hj
          show get_opponent t (x :: xs.set k ((xs.getD k (0, 0)).2, (xs.getD k (0, 0)).1)) =
            get_opponent t (x :: xs)
          unfold get_opponent
          by_cases h : x.1 = t ∨ x.2 = t
          · rw [if_pos h, if_pos h]
          · rw [if_neg h, if_neg h]
            exact ih k hk

/-- Helper: flipping the orientation of one match leaves `evaluate_cost`
unchanged (the cost model is orientation-invariant). -/
theorem evaluate_cost_set_flip (c : Scheduler) (s : List (List (Nat × Nat))) (k j : Nat)
    (hk : k < s.length) (hj : j < (s.getD k []).length) :
    evaluate_cost c (s.set k ((s.getD k []).set j
      (((s.getD k []).getD j (0, 0)).2, ((s.getD k []).getD j (0, 0)).1))) =
      evaluate_cost c s := by
  have key : ∀ (team r' : Nat),
      get_opponent team ((s.set k ((s.getD k []).set j
        (((s.getD k []).getD j (0, 0)).2, ((s.getD k []).getD j (0, 0)).1))).getD r' []) =
      get_opponent team (s.getD r' []) := by
    intro team r'
    by_cases hr : r' = k
    · subst hr
      have hset : (s.set r' ((s.getD r' []).set j
          (((s.getD r' []).getD j (0, 0)).2, ((s.getD r' []).getD j (0, 0)).1))).getD r' [] =
          (s.getD r' []).set j (((s.getD r' []).getD j (0, 0)).2, ((s.getD r' []).getD j (0, 0)).1) := by
        rw [List.getD_eq_getElem?_getD, List.getElem?_set_self hk]
        rfl
      rw [hset]
      exact get_opponent_set_flip (s.getD r' []) j hj team
    · have hset : (s.set k ((s.getD k []).set j
          (((s.getD k []).getD j (0, 0)).2, ((s.getD k []).getD j (0, 0)).1))).getD r' [] =
          s.getD r' [] := by
        rw [List.getD_eq_getElem?_getD, List.getElem?_set_ne (fun h => hr h.symm),
          ← List.getD_eq_getElem?_getD]
      rw [hset]
  unfold evaluate_cost
  rw [List.length_set]
  apply congrArg
  apply List.map_congr_left
  intro team _
  apply congrArg
  apply List.map_congr_left
  intro r _
  rw [key team r, key team (r + 1)]

/-- A concrete operation-1 draw with two well-formed attempts for the 4-team
schedule. -/
def dswap : NbrDraw :=
  { op := 1,
    swaps := [{ r1 := 0, r2 := 1, m1 := 0, m2 := 0 }, { r1 := 2, r2 := 1, m1 := 1, m2 := 1 }],
    flipR := 0, flipM := 0 }

/-- Claim C2: on any schedule satisfying the round-robin invariants, and for
every draw sequence, operation 1's conflict check always fires, so the swap
loop exhausts its attempts and returns the schedule unchanged; consequently
the neighbor differs from the input at most by the orientation of one match
(operation 2) and its cost equals the input's cost. -/
theorem neighbor_preserves_cost (c : Scheduler) (s : List (List (Nat × Nat))) (d : NbrDraw)
    (hinv : RoundRobinInvariants c.num_teams s) (hwf : wfNbrDraw s d) :
    evaluate_cost c (generate_neighbor s d) = evaluate_cost c s ∧
    (d.op = 1 → generate_neighbor s d = s) := by
  by_cases h1 : d.op = 1
  · have hs : generate_neighbor s d = s := by
      unfold generate_neighbor
      rw [if_pos h1]
      exact trySwaps_noop hinv d.swaps (hwf.1 h1)
    exact ⟨by rw [hs], fun _ => hs⟩
  · by_cases h2 : d.op = 2
    · obtain ⟨hfr, hfm⟩ := hwf.2 h2
      constructor
      · unfold generate_neighbor
        rw [if_neg h1, if_pos h2]
        exact evaluate_cost_set_flip c s d.flipR d.flipM hfr hfm
      · intro h
        exact absurd h h1
    · have hs : generate_neighbor s d = s := by
        unfold generate_neighbor
        rw [if_neg h1, if_neg h2]
      exact ⟨by rw [hs], fun h => absurd h h1⟩

/-- Claim C2, witness: on the valid 4-team schedule a concrete two-attempt
operation-1 draw is a no-op with unchanged cost. -/
theorem neighbor_preserves_cost_witness :
    RoundRobinInvariants schedW4.num_teams (initialize_schedule 4) ∧
    wfNbrDraw (initialize_schedule 4) dswap ∧
    evaluate_cost schedW4 (generate_neighbor (initialize_schedule 4) dswap) =
      evaluate_cost schedW4 (initialize_schedule 4) ∧
    generate_neighbor (initialize_schedule 4) dswap = initialize_schedule 4 :=
  ⟨by decide, by decide,
   (neighbor_preserves_cost schedW4 (initialize_schedule 4) dswap (by decide) (by decide)).1,
   (neighbor_preserves_cost schedW4 (initialize_schedule 4) dswap (by decide) (by decide)).2 rfl⟩

/-- Helper: `filterMap` whose function always succeeds is a `map`. -/
theorem filterMap_eq_map_of_forall {α β : Type} (l : List α) (f : α → Option β) (g : α → β)
    (h : ∀ a ∈ l, f a = some (g a)) : l.filterMap f = l.map g := by
  induction l with
  | nil => rfl
  | cons x xs ih =>
      rw [List.filterMap_cons, h x (List.mem_cons_self x xs), List.map_cons,
        ih (fun a ha => h a (List.mem_cons_of_mem x ha))]

/-- Helper: closed form of the circle-method team order after `r` rotations:
team 0 stays at position 0, and position `p + 1` holds team
`1 + ((p + (n-2)·r) mod (n-1))`. -/
theorem teamsAfter_eq (n : Nat) (hn : 2 ≤ n) (r : Nat) :
    teamsAfter n r = 0 :: (List.range (n - 1)).map (fun p => 1 + ((p + (n - 2) * r) % (n - 1))) := by
  induction r with
  | zero =>
      show List.range n = _
      have h1 : n = (n - 1) + 1 := by omega
      rw [h1, List.range_succ_eq_map]
      congr 1
      apply List.map_congr_left
      intro p hp
      rw [List.mem_range] at hp
      simp [Nat.mod_eq_of_lt hp, Nat.succ_eq_add_one]
      omega
  | succ r ih =>
      have h1 : n - 1 = (n - 2) + 1 := by omega
      have hsplit : List.range (n - 1) = List.range (n - 2) ++ [n - 2] := by
        rw [h1, List.range_succ]
      have key1 : n - 2 + (n - 2) * r = 0 + (n - 2) * (r + 1) := by
        rw [Nat.mul_succ]
        omega
      have key2 : ∀ p : Nat, p + 1 + (n - 2) * (r + 1) = p + (n - 2) * r + (n - 1) := by
        intro p
        rw [Nat.mul_succ]
        omega
      show rotateTeams (teamsAfter n r) = _
      rw [ih]
      calc rotateTeams (0 :: (List.range (n - 1)).map (fun p => 1 + ((p + (n - 2) * r) % (n - 1))))
          = 0 :: ((List.range (n - 1)).map (fun p => 1 + ((p + (n - 2) * r) % (n - 1)))).getLastD 0 ::
              ((List.range (n - 1)).map (fun p => 1 + ((p + (n - 2) * r) % (n - 1)))).dropLast := rfl
        _ = 0 :: (1 + ((n - 2 + (n - 2) * r) % (n - 1))) ::
              (List.range (n - 2)).map (fun p => 1 + ((p + (n - 2) * r) % (n - 1))) := by
            rw [hsplit, List.map_append, List.map_singleton, List.getLastD_concat,
              List.dropLast_concat]
        _ = 0 :: (1 + ((0 + (n - 2) * (r + 1)) % (n - 1))) ::
              (List.range (n - 2)).map (fun p => 1 + ((p + 1 + (n - 2) * (r + 1)) % (n - 1))) := by
            rw [key1]
            congr 1
            congr 1
            apply List.map_congr_left
            intro p _
            rw [key2 p, Nat.add_mod_right]
        _ = 0 :: (List.range (n - 1)).map (fun p => 1 + ((p + (n - 2) * (r + 1)) % (n - 1))) := by
            rw [h1, List.range_succ_eq_map, List.map_cons, List.map_map]
            rfl

/-- Helper: two residues below the modulus that are congruent are equal. -/
theorem mod_lt_inj {m r r' : Nat} (hr : r < m) (hr' : r' < m) (h : r ≡ r' [MOD m]) : r = r' := by
  have h2 := h
  unfold Nat.ModEq at h2
  rwa [Nat.mod_eq_of_lt hr, Nat.mod_eq_of_lt hr'] at h2

/-- Helper: the rotated circle always has `n` positions. -/
theorem teamsAfter_length (n : Nat) (hn : 2 ≤ n) (r : Nat) : (teamsAfter n r).length = n := by
  rw [teamsAfter_eq n hn r]
  simp
  omega

/-- Helper: reading a position of the rotated circle gives `teamAt`. -/
theorem teamsAfter_getD (n : Nat) (hn : 2 ≤ n) (r i : Nat) (hi : i < n) :
    (teamsAfter n r).getD i 0 = teamAt n r i := by
  rw [teamsAfter_eq n hn r]
  cases i with
  | zero => rfl
  | succ j =>
      have hj : j < n - 1 := by omega
      show ((List.range (n - 1)).map (fun p => 1 + ((p + (n - 2) * r) % (n - 1)))).getD j 0 =
        teamAt n r (j + 1)
      rw [List.getD_eq_getElem _ _ (by simpa using hj), List.getElem_map]
      unfold teamAt
      rw [if_neg (by omega)]
      simp

/-- Helper: every entry of the rotated circle is a valid working-list team. -/
theorem teamAt_lt (n : Nat) (hn : 2 ≤ n) (r i : Nat) : teamAt n r i < n := by
  unfold teamAt
  split
  · omega
  · have : (i - 1 + (n - 2) * r) % (n - 1) < n - 1 := Nat.mod_lt _ (by omega)
    omega

/-- Helper: nonzero positions hold nonzero teams. -/
theorem teamAt_pos (n r i : Nat) (hi : i ≠ 0) : 1 ≤ teamAt n r i := by
  unfold teamAt
  rw [if_neg hi]
  omega

/-- Helper: within one round, distinct positions hold distinct teams. -/
theorem teamAt_inj (n : Nat) (hn : 2 ≤ n) (r : Nat) {i j : Nat} (hi : i < n) (hj : j < n)
    (h : teamAt n r i = teamAt n r j) : i = j := by
  unfold teamAt at h
  by_cases hi0 : i = 0 <;> by_cases hj0 : j = 0
  · omega
  · rw [if_pos hi0, if_neg hj0] at h
    omega
  · rw [if_neg hi0, if_pos hj0] at h
    omega
  · rw [if_neg hi0, if_neg hj0] at h
    have h2 : (i - 1 + (n - 2) * r) % (n - 1) = (j - 1 + (n - 2) * r) % (n - 1) := by omega
    have h3 : i - 1 ≡ j - 1 [MOD n - 1] := Nat.ModEq.add_right_cancel' ((n - 2) * r) h2
    have h4 : i - 1 = j - 1 := mod_lt_inj (by omega) (by omega) h3
    omega

/-- Helper: the round-generation loop from rotation state `r` produces the
rounds of states `r, r+1, …`. -/
theorem buildRounds_eq (numTeams n : Nat) :
    ∀ (k r : Nat), buildRounds numTeams n k (teamsAfter n r) =
      (List.range k).map (fun q => roundMatches numTeams n (teamsAfter n (r + q))) := by
  intro k
  induction k with
  | zero => intro r; rfl
  | succ k ih =>
      intro r
      show roundMatches numTeams n (teamsAfter n r) ::
          buildRounds numTeams n k (rotateTeams (teamsAfter n r)) = _
      have : rotateTeams (teamsAfter n r) = teamsAfter n (r + 1) := rfl
      rw [this, ih (r + 1), List.range_succ_eq_map, List.map_cons, List.map_map]
      simp only [Function.comp, Nat.add_zero]
      congr 1
      apply List.map_congr_left
      intro q _
      congr 1
      congr 1
      omega

/-- Helper: for even team counts the builder is the rotation-indexed list of
rounds. -/
theorem initialize_eq (n : Nat) (he : n % 2 = 0) :
    initialize_schedule n = (List.range (n - 1)).map (fun r => roundMatches n n (teamsAfter n r)) := by
  unfold initialize_schedule
  dsimp only
  rw [if_neg (by omega : ¬n % 2 = 1)]
  have h0 : List.range n = teamsAfter n 0 := rfl
  rw [h0, buildRounds_eq n n (n - 1) 0]
  apply List.map_congr_left
  intro q _
  rw [Nat.zero_add]

/-- Helper: for even `n` no position holds the dummy team, so round `r` is the
full pairing of position `i` with position `n - 1 - i`. -/
theorem roundMatches_eq (n : Nat) (hn : 2 ≤ n) (he : n % 2 = 0) (r : Nat) :
    roundMatches n n (teamsAfter n r) =
      (List.range (n / 2)).map (fun i => (teamAt n r i, teamAt n r (n - 1 - i))) := by
  unfold roundMatches
  apply filterMap_eq_map_of_forall
  intro i hi
  rw [List.mem_range] at hi
  have hin : i < n := by omega
  have hin2 : n - 1 - i < n := by omega
  rw [teamsAfter_getD n hn r i hin, teamsAfter_getD n hn r (n - 1 - i) hin2]
  rw [if_pos ⟨teamAt_lt n hn r i, teamAt_lt n hn r (n - 1 - i)⟩]

/-- Helper: summing the constant 2 over a list. -/
theorem sum_map_two {α : Type} (l : List α) : (l.map (fun _ => (2 : Nat))).sum = 2 * l.length := by
  induction l with
  | nil => rfl
  | cons x xs ih =>
      rw [List.map_cons, List.sum_cons, ih, List.length_cons]
      omega

/-- Helper: a duplicate-free list of `n` naturals below `n` is a permutation
of `range n`. -/
theorem perm_range_of (l : List Nat) (n : Nat) (hd : l.Nodup) (hs : ∀ x ∈ l, x < n)
    (hl : l.length = n) : l.Perm (List.range n) := by
  have hsub : l ⊆ List.range n := fun x hx => List.mem_range.mpr (hs x hx)
  obtain ⟨l', hperm, hsl⟩ := List.Nodup.subperm hd hsub
  have hlen : l'.length = (List.range n).length := by
    rw [hperm.length_eq, hl, List.length_range]
  have heq : l' = List.range n := List.Sublist.eq_of_length hsl hlen
  rw [← heq]
  exact hperm.symm

/-- Helper: the paired positions of a round are a permutation of all `n`
positions (for even `n`). -/
theorem posPairs_perm (n : Nat) (hn : 2 ≤ n) (he : n % 2 = 0) :
    (posPairs n).Perm (List.range n) := by
  apply perm_range_of
  · unfold posPairs
    rw [List.nodup_flatten]
    constructor
    · intro l hl
      rw [List.mem_map] at hl
      obtain ⟨i, hi, rfl⟩ := hl
      rw [List.mem_range] at hi
      simp
      omega
    · rw [List.pairwise_map]
      apply List.Pairwise.imp_of_mem ?_ (List.pairwise_lt_range (n / 2))
      intro i j hi hj hij
      rw [List.mem_range] at hi hj
      intro a ha hb
      simp at ha hb
      omega
  · intro x hx
    unfold posPairs at hx
    rw [List.mem_flatten] at hx
    obtain ⟨l, hl, hxl⟩ := hx
    rw [List.mem_map] at hl
    obtain ⟨i, hi, rfl⟩ := hl
    rw [List.mem_range] at hi
    simp at hxl
    omega
  · unfold posPairs
    rw [List.length_flatten, List.map_map]
    have h2 : (List.range (n / 2)).map (List.length ∘ fun i => [i, n - 1 - i]) =
        (List.range (n / 2)).map (fun _ => 2) := rfl
    rw [h2, sum_map_two, List.length_range]
    omega

/-- Helper: the flattened team list of round `r` is `teamAt` applied to the
paired positions. -/
theorem teamsInRound_round_eq (n : Nat) (hn : 2 ≤ n) (he : n % 2 = 0) (r : Nat) :
    teamsInRound (roundMatches n n (teamsAfter n r)) = (posPairs n).map (teamAt n r) := by
  rw [roundMatches_eq n hn he r]
  unfold teamsInRound posPairs
  rw [List.map_map, List.map_flatten, List.map_map]
  rfl

/-- Helper: every real team appears exactly once in each constructed round. -/
theorem round_count (n : Nat) (hn : 2 ≤ n) (he : n % 2 = 0) (r t : Nat) (ht : t < n) :
    (teamsInRound (roundMatches n n (teamsAfter n r))).count t = 1 := by
  rw [teamsInRound_round_eq n hn he r]
  have h1 : ((posPairs n).map (teamAt n r)).Perm ((List.range n).map (teamAt n r)) :=
    (posPairs_perm n hn he).map _
  have h2 : ((List.range n).map (teamAt n r)).Perm (List.range n) := by
    apply perm_range_of
    · apply List.Nodup.map_on ?_ (List.nodup_range n)
      intro x hx y hy hxy
      rw [List.mem_range] at hx hy
      exact teamAt_inj n hn r hx hy hxy
    · intro x hx
      rw [List.mem_map] at hx
      obtain ⟨i, _, rfl⟩ := hx
      exact teamAt_lt n hn r i
    · rw [List.length_map, List.length_range]
  rw [h1.count_eq, h2.count_eq]
  exact List.count_eq_one_of_mem (List.nodup_range n) (List.mem_range.mpr ht)

/-- Helper: consecutive naturals are coprime. -/
theorem coprime_succ_pred (k : Nat) : Nat.Coprime (k + 1) k := by
  rw [Nat.add_comm, Nat.coprime_add_self_left]
  exact Nat.coprime_one_left k

/-- Helper: value of `teamAt` at position 0. -/
theorem teamAt_zero (n r : Nat) : teamAt n r 0 = 0 := rfl

/-- Helper: value of `teamAt` at a nonzero position. -/
theorem teamAt_of_pos (n r i : Nat) (hi : i ≠ 0) :
    teamAt n r i = 1 + ((i - 1 + (n - 2) * r) % (n - 1)) := by
  unfold teamAt
  rw [if_neg hi]

/-- Helper: equal sorted pairs come from equal or swapped raw pairs. -/
theorem sortPair_eq_cases {a b a' b' : Nat} (h : sortPair (a, b) = sortPair (a', b')) :
    (a = a' ∧ b = b') ∨ (a = b' ∧ b = a') := by
  unfold sortPair at h
  dsimp only at h
  by_cases h1 : a ≤ b <;> by_cases h2 : a' ≤ b'
  · rw [if_pos h1, if_pos h2, Prod.mk.injEq] at h
    exact Or.inl h
  · rw [if_pos h1, if_neg h2, Prod.mk.injEq] at h
    exact Or.inr h
  · rw [if_neg h1, if_pos h2, Prod.mk.injEq] at h
    exact Or.inr ⟨h.2, h.1⟩
  · rw [if_neg h1, if_neg h2, Prod.mk.injEq] at h
    exact Or.inl ⟨h.2, h.1⟩

/-- Helper (central injectivity): two round/position indices producing the same
unordered match coincide — the modular structure of the circle method forbids
any unordered pair from appearing twice. -/
theorem pair_inj (n : Nat) (hn : 2 ≤ n) (he : n % 2 = 0) {r r' i i' : Nat}
    (hr : r < n - 1) (hr' : r' < n - 1) (hi : i < n / 2) (hi' : i' < n / 2)
    (h : sortPair (teamAt n r i, teamAt n r (n - 1 - i)) =
      sortPair (teamAt n r' i', teamAt n r' (n - 1 - i'))) : r = r' ∧ i = i' := by
  by_cases hsmall : n = 2
  · subst hsmall
    omega
  have hn4 : 4 ≤ n := by omega
  have hmo : (n - 1) % 2 = 1 := by omega
  have hcop21 : Nat.Coprime (n - 1) 2 := by
    rw [Nat.coprime_two_right, Nat.odd_iff]
    exact hmo
  have hcopc : Nat.Coprime (n - 1) (n - 2) := by
    have h1 : n - 1 = (n - 2) + 1 := by omega
    rw [h1]
    exact coprime_succ_pred (n - 2)
  have hcases := sortPair_eq_cases h
  by_cases hi0 : i = 0 <;> by_cases hi0' : i' = 0
  · -- both pairs contain team 0: equal partners force equal rounds
    subst hi0
    subst hi0'
    have hb := teamAt_of_pos n r (n - 1 - 0) (by omega)
    have hb' := teamAt_of_pos n r' (n - 1 - 0) (by omega)
    refine ⟨?_, rfl⟩
    have hbeq : teamAt n r (n - 1 - 0) = teamAt n r' (n - 1 - 0) := by
      rcases hcases with ⟨h1, h2⟩ | ⟨h1, h2⟩
      · exact h2
      · rw [teamAt_zero, hb'] at h1
        omega
    rw [hb, hb'] at hbeq
    have hbb : n - 1 - 0 - 1 + (n - 2) * r ≡ n - 1 - 0 - 1 + (n - 2) * r' [MOD n - 1] := by
      have : (n - 1 - 0 - 1 + (n - 2) * r) % (n - 1) =
          (n - 1 - 0 - 1 + (n - 2) * r') % (n - 1) := by omega
      exact this
    have hme2 : (n - 2) * r ≡ (n - 2) * r' [MOD n - 1] :=
      Nat.ModEq.add_left_cancel' (n - 1 - 0 - 1) hbb
    exact mod_lt_inj hr hr' (Nat.ModEq.cancel_left_of_coprime hcopc hme2)
  · -- exactly one pair contains team 0: impossible
    exfalso
    subst hi0
    have ha' := teamAt_pos n r' i' hi0'
    have hb' := teamAt_pos n r' (n - 1 - i') (by omega)
    rcases hcases with ⟨h1, -⟩ | ⟨h1, -⟩
    · rw [teamAt_zero] at h1
      omega
    · rw [teamAt_zero] at h1
      omega
  · exfalso
    subst hi0'
    have ha := teamAt_pos n r i hi0
    have hb := teamAt_pos n r (n - 1 - i) (by omega)
    rcases hcases with ⟨h1, -⟩ | ⟨-, h2⟩
    · rw [teamAt_zero] at h1
      omega
    · rw [teamAt_zero] at h2
      omega
  · -- no team 0 involved: residue sums force equal rounds, then positions
    rw [teamAt_of_pos n r i hi0, teamAt_of_pos n r (n - 1 - i) (by omega),
      teamAt_of_pos n r' i' hi0', teamAt_of_pos n r' (n - 1 - i') (by omega)] at hcases
    have hx := Nat.mod_modEq (i - 1 + (n - 2) * r) (n - 1)
    have hy := Nat.mod_modEq (n - 1 - i - 1 + (n - 2) * r) (n - 1)
    have hx' := Nat.mod_modEq (i' - 1 + (n - 2) * r') (n - 1)
    have hy' := Nat.mod_modEq (n - 1 - i' - 1 + (n - 2) * r') (n - 1)
    have hsum : (i - 1 + (n - 2) * r) % (n - 1) + (n - 1 - i - 1 + (n - 2) * r) % (n - 1) =
        (i' - 1 + (n - 2) * r') % (n - 1) + (n - 1 - i' - 1 + (n - 2) * r') % (n - 1) := by
      rcases hcases with ⟨h1, h2⟩ | ⟨h1, h2⟩ <;> omega
    have hco1 : i - 1 + (n - 2) * r + (n - 1 - i - 1 + (n - 2) * r) =
        (n - 3) + 2 * ((n - 2) * r) := by omega
    have hco2 : i' - 1 + (n - 2) * r' + (n - 1 - i' - 1 + (n - 2) * r') =
        (n - 3) + 2 * ((n - 2) * r') := by omega
    have hchain : (n - 3) + 2 * ((n - 2) * r) ≡ (n - 3) + 2 * ((n - 2) * r') [MOD n - 1] := by
      have h1 := (hx.add hy).symm
      have h2 := hx'.add hy'
      rw [hco1] at h1
      rw [hco2] at h2
      have h3 : (i - 1 + (n - 2) * r) % (n - 1) + (n - 1 - i - 1 + (n - 2) * r) % (n - 1) ≡
          (n - 3) + 2 * ((n - 2) * r') [MOD n - 1] := hsum ▸ h2
      exact h1.trans h3
    have hcanc1 : 2 * ((n - 2) * r) ≡ 2 * ((n - 2) * r') [MOD n - 1] :=
      Nat.ModEq.add_left_cancel' (n - 3) hchain
    have hassoc : ∀ q : Nat, 2 * ((n - 2) * q) = 2 * (n - 2) * q := by
      intro q
      ring
    rw [hassoc r, hassoc r'] at hcanc1
    have hcop : Nat.Coprime (n - 1) (2 * (n - 2)) := Nat.Coprime.mul_right hcop21 hcopc
    have hrr : r ≡ r' [MOD n - 1] := Nat.ModEq.cancel_left_of_coprime hcop hcanc1
    have hre : r = r' := mod_lt_inj hr hr' hrr
    subst hre
    refine ⟨rfl, ?_⟩
    rcases hcases with ⟨h1, -⟩ | ⟨h1, -⟩
    · have hme : i - 1 + (n - 2) * r ≡ i' - 1 + (n - 2) * r [MOD n - 1] := by
        have : (i - 1 + (n - 2) * r) % (n - 1) = (i' - 1 + (n - 2) * r) % (n - 1) := by omega
        exact this
      have hc := Nat.ModEq.add_right_cancel' ((n - 2) * r) hme
      have := @mod_lt_inj (n - 1) (i - 1) (i' - 1) (by omega) (by omega) hc
      omega
    · have hme : i - 1 + (n - 2) * r ≡ n - 1 - i' - 1 + (n - 2) * r [MOD n - 1] := by
        have : (i - 1 + (n - 2) * r) % (n - 1) =
            (n - 1 - i' - 1 + (n - 2) * r) % (n - 1) := by omega
        exact this
      have hc := Nat.ModEq.add_right_cancel' ((n - 2) * r) hme
      have := @mod_lt_inj (n - 1) (i - 1) (n - 1 - i' - 1) (by omega) (by omega) hc
      omega

/-- Helper: no sorted match repeats anywhere in the constructed schedule. -/
theorem allPairs_nodup (n : Nat) (hn : 2 ≤ n) (he : n % 2 = 0) :
    (allPairs (initialize_schedule n)).Nodup := by
  rw [initialize_eq n he]
  unfold allPairs
  rw [List.map_flatten, List.map_map, List.nodup_flatten]
  constructor
  · intro l hl
    rw [List.mem_map] at hl
    obtain ⟨r, hrm, rfl⟩ := hl
    rw [List.mem_range] at hrm
    simp only [Function.comp]
    rw [roundMatches_eq n hn he r, List.map_map]
    apply List.Nodup.map_on ?_ (List.nodup_range (n / 2))
    intro x hx y hy hxy
    rw [List.mem_range] at hx hy
    simp only [Function.comp] at hxy
    exact (pair_inj n hn he hrm hrm hx hy hxy).2
  · rw [List.pairwise_map]
    apply List.Pairwise.imp_of_mem ?_ (List.pairwise_lt_range (n - 1))
    intro r r' hrm hrm' hlt
    rw [List.mem_range] at hrm hrm'
    intro q hq hq'
    simp only [Function.comp] at hq hq'
    rw [roundMatches_eq n hn he r, List.map_map] at hq
    rw [roundMatches_eq n hn he r', List.map_map] at hq'
    rw [List.mem_map] at hq hq'
    obtain ⟨i, hi, rfl⟩ := hq
    obtain ⟨i', hi', hqq⟩ := hq'
    rw [List.mem_range] at hi hi'
    simp only [Function.comp] at hqq
    have := pair_inj n hn he hrm hrm' hi hi' hqq.symm
    omega

/-- Helper: the constructed schedule has exactly `n(n-1)/2` recorded matches. -/
theorem allPairs_length (n : Nat) (hn : 2 ≤ n) (he : n % 2 = 0) :
    (allPairs (initialize_schedule n)).length = n * (n - 1) / 2 := by
  rw [initialize_eq n he]
  unfold allPairs
  rw [List.length_map, List.length_flatten, List.map_map]
  have hconst : (List.range (n - 1)).map (List.length ∘ fun r => roundMatches n n (teamsAfter n r)) =
      (List.range (n - 1)).map (fun _ => n / 2) := by
    apply List.map_congr_left
    intro r _
    simp only [Function.comp]
    rw [roundMatches_eq n hn he r, List.length_map, List.length_range]
  rw [hconst]
  have h2 : ((List.range (n - 1)).map (fun _ => n / 2)).sum = (n - 1) * (n / 2) := by
    induction (n - 1) with
    | zero => simp
    | succ k ih =>
        rw [List.range_succ, List.map_append, List.sum_append, ih]
        simp
        ring
  rw [h2]
  obtain ⟨k, hk⟩ : ∃ k, n = 2 * k := ⟨n / 2, by omega⟩
  subst hk
  obtain ⟨j, hj⟩ : ∃ j, k = j + 1 := ⟨k - 1, by omega⟩
  subst hj
  have e1 : 2 * (j + 1) / 2 = j + 1 := by omega
  have e2 : 2 * (j + 1) - 1 = 2 * j + 1 := by omega
  rw [e1, e2]
  have e3 : 2 * (j + 1) * (2 * j + 1) = 2 * ((2 * j + 1) * (j + 1)) := by ring
  rw [e3, Nat.mul_div_cancel_left _ (by norm_num : (0 : Nat) < 2)]

/-- Helper: the number of ordered pairs `(a, b)` with `a < b < n`. -/
theorem card_sorted_pairs (n : Nat) :
    (((Finset.range n) ×ˢ (Finset.range n)).filter (fun p => p.1 < p.2)).card = n * (n - 1) / 2 := by
  have hTD : (((Finset.range n) ×ˢ (Finset.range n)).filter (fun p => p.1 < p.2)) =
      ((Finset.range n).offDiag.filter (fun p => p.1 < p.2)) := by
    ext p
    simp only [Finset.mem_filter, Finset.mem_offDiag, Finset.mem_product, Finset.mem_range]
    omega
  rw [hTD]
  have hswap : ((Finset.range n).offDiag.filter (fun p => p.1 < p.2)).card =
      ((Finset.range n).offDiag.filter (fun p => ¬p.1 < p.2)).card := by
    apply Finset.card_bij (fun p _ => (p.2, p.1))
    · intro p hp
      rw [Finset.mem_filter, Finset.mem_offDiag] at hp ⊢
      refine ⟨⟨hp.1.2.1, hp.1.1, ?_⟩, ?_⟩
      · have := hp.2
        omega
      · have := hp.2
        omega
    · intro p _ q _ hpq
      rw [Prod.mk.injEq] at hpq
      exact Prod.ext hpq.2 hpq.1
    · intro q hq
      refine ⟨(q.2, q.1), ?_, rfl⟩
      rw [Finset.mem_filter, Finset.mem_offDiag] at hq ⊢
      refine ⟨⟨hq.1.2.1, hq.1.1, ?_⟩, ?_⟩
      · have h1 := hq.1.2.2
        have h2 := hq.2
        omega
      · have h1 := hq.1.2.2
        have h2 := hq.2
        omega
  have hsplit := Finset.filter_card_add_filter_neg_card_eq_card
    (fun p : Nat × Nat => p.1 < p.2) (s := (Finset.range n).offDiag)
  rw [Finset.offDiag_card, Finset.card_range] at hsplit
  have e : n * (n - 1) = n * n - n := by
    rcases n with _ | m
    · rfl
    · rw [Nat.succ_sub_one]
      have h3 : (m + 1) * (m + 1) = (m + 1) * m + (m + 1) := by ring
      rw [h3]
      omega
  omega

/-- Helper: `List.count` over pairs agrees between the product `BEq` instance
and the one derived from decidable equality. -/
theorem count_beq_bridge (l : List (Nat × Nat)) (q : Nat × Nat) :
    l.count q = @List.count (Nat × Nat) instBEqOfDecidableEq q l := by
  induction l with
  | nil => rfl
  | cons x xs ih =>
      rw [List.count_cons, @List.count_cons _ instBEqOfDecidableEq, ih]
      congr 1
      by_cases h : x = q
      · subst h
        have h1 : (x == x) = true := by simp
        have h2 : (@BEq.beq _ instBEqOfDecidableEq x x) = true := by
          show decide (x = x) = true
          simp
        rw [h1, h2]
      · have h1 : (x == q) = false := by
          rw [beq_eq_false_iff_ne]
          exact h
        have h2 : (@BEq.beq _ instBEqOfDecidableEq x q) = false := by
          show decide (x = q) = false
          simp [h]
        rw [h1, h2]

/-- Helper: every unordered pair of distinct real teams is scheduled exactly
once (pigeonhole: `n(n-1)/2` distinct sorted pairs inside a set of that
cardinality). -/
theorem pair_count_one (n : Nat) (hn : 2 ≤ n) (he : n % 2 = 0) {a b : Nat} (hab : a < b)
    (hbn : b < n) : (allPairs (initialize_schedule n)).count (a, b) = 1 := by
  have hnd := allPairs_nodup n hn he
  have hlen := allPairs_length n hn he
  have hsubT : (allPairs (initialize_schedule n)).toFinset ⊆
      ((Finset.range n) ×ˢ (Finset.range n)).filter (fun p => p.1 < p.2) := by
    intro q hq
    rw [List.mem_toFinset] at hq
    rw [initialize_eq n he] at hq
    unfold allPairs at hq
    rw [List.mem_map] at hq
    obtain ⟨mt, hmt, rfl⟩ := hq
    rw [List.mem_flatten] at hmt
    obtain ⟨round, hround, hmem⟩ := hmt
    rw [List.mem_map] at hround
    obtain ⟨r, hrr, rfl⟩ := hround
    rw [List.mem_range] at hrr
    rw [roundMatches_eq n hn he r, List.mem_map] at hmem
    obtain ⟨i, hi, rfl⟩ := hmem
    rw [List.mem_range] at hi
    have h1 : teamAt n r i < n := teamAt_lt n hn r i
    have h2 : teamAt n r (n - 1 - i) < n := teamAt_lt n hn r (n - 1 - i)
    have hne : teamAt n r i ≠ teamAt n r (n - 1 - i) := by
      intro heq
      have := teamAt_inj n hn r (by omega) (by omega) heq
      omega
    rw [Finset.mem_filter, Finset.mem_product, Finset.mem_range, Finset.mem_range]
    unfold sortPair
    dsimp only
    by_cases hle : teamAt n r i ≤ teamAt n r (n - 1 - i)
    · rw [if_pos hle]
      exact ⟨⟨h1, h2⟩, by omega⟩
    · rw [if_neg hle]
      exact ⟨⟨h2, h1⟩, by omega⟩
  have hcard : (allPairs (initialize_schedule n)).toFinset.card = n * (n - 1) / 2 := by
    rw [List.toFinset_card_of_nodup hnd, hlen]
  have hEq : (allPairs (initialize_schedule n)).toFinset =
      ((Finset.range n) ×ˢ (Finset.range n)).filter (fun p => p.1 < p.2) :=
    Finset.eq_of_subset_of_card_le hsubT (by rw [hcard, card_sorted_pairs n])
  have hmemL : (a, b) ∈ allPairs (initialize_schedule n) := by
    rw [← List.mem_toFinset, hEq]
    rw [Finset.mem_filter, Finset.mem_product, Finset.mem_range, Finset.mem_range]
    exact ⟨⟨by omega, hbn⟩, hab⟩
  rw [count_beq_bridge]
  exact List.count_eq_one_of_mem hnd hmemL

/-- Helper: per-round exact-once occurrence for the built schedule. -/
theorem init_round_counts (n : Nat) (hn : 2 ≤ n) (he : n % 2 = 0) :
    ∀ round ∈ initialize_schedule n, ∀ t < n, (teamsInRound round).count t = 1 := by
  intro round hround t ht
  rw [initialize_eq n he, List.mem_map] at hround
  obtain ⟨r, -, rfl⟩ := hround
  exact round_count n hn he r t ht

/-- Helper: the built schedule passes the source validator for every even
team count. -/
theorem is_valid_init (n : Nat) (hn : 2 ≤ n) (he : n % 2 = 0) :
    is_valid_schedule n (initialize_schedule n) = true := by
  unfold is_valid_schedule
  rw [Bool.and_eq_true, Bool.and_eq_true]
  refine ⟨⟨?_, ?_⟩, ?_⟩
  · rw [List.all_eq_true]
    intro round hround
    unfold roundOk
    rw [List.all_eq_true]
    intro t ht
    rw [List.mem_range] at ht
    rw [beq_iff_eq]
    exact init_round_counts n hn he round hround t ht
  · exact decide_eq_true (allPairs_nodup n hn he)
  · rw [beq_iff_eq]
    exact allPairs_length n hn he

/-- Claim C3: for every even `numTeams ≥ 2`, `initialize_schedule` returns a
schedule with exactly `numTeams - 1` rounds, each round containing exactly
`numTeams / 2` matches, in which every team appears exactly once per round,
every unordered pair of distinct teams appears in exactly one match overall,
and `is_valid_schedule` returns `true`. -/
theorem even_build_correct (n : Nat) (hn : 2 ≤ n) (he : n % 2 = 0) :
    (initialize_schedule n).length = n - 1 ∧
    (∀ round ∈ initialize_schedule n, round.length = n / 2) ∧
    (∀ round ∈ initialize_schedule n, ∀ t < n, (teamsInRound round).count t = 1) ∧
    (∀ a b : Nat, a < b → b < n → (allPairs (initialize_schedule n)).count (a, b) = 1) ∧
    is_valid_schedule n (initialize_schedule n) = true := by
  refine ⟨?_, ?_, init_round_counts n hn he,
    fun a b hab hbn => pair_count_one n hn he hab hbn, is_valid_init n hn he⟩
  · rw [initialize_eq n he, List.length_map, List.length_range]
  · intro round hround
    rw [initialize_eq n he, List.mem_map] at hround
    obtain ⟨r, -, rfl⟩ := hround
    rw [roundMatches_eq n hn he r, List.length_map, List.length_range]

/-- Claim C3, witness: the theorem applied at `numTeams = 6`. -/
theorem even_build_correct_witness :
    (initialize_schedule 6).length = 5 ∧
    is_valid_schedule 6 (initialize_schedule 6) = true ∧
    (allPairs (initialize_schedule 6)).count (2, 5) = 1 :=
  ⟨(even_build_correct 6 (by norm_num) (by norm_num)).1,
   (even_build_correct 6 (by norm_num) (by norm_num)).2.2.2.2,
   (even_build_correct 6 (by norm_num) (by norm_num)).2.2.2.1 2 5 (by norm_num) (by norm_num)⟩
